import Mathlib

/-!
Verification of the field-configuration safety and recommendation scripts.

The definitions below are shallow embeddings of the Python scripts in
`archive/scripts/`:
* `verify_export_safety.py` (`check_expansion_dependencies`,
  `simulate_field_disabling`),
* `apply_final_recommendations.py` (`apply_recommendations`, `save_config`),
* `analyze_field_quality.py` (`categorize_field` and the report sort),
* `analyze_final_recommendations.py` (the report sort).

Python strings are modelled as Lean `String`s, with character-level helpers
standing in for the Python string operations (`in`, `startswith`, `endswith`,
`split`, `lower`).  Only ASCII text occurs in the repository, where Python's
`str.lower` coincides with `Char.toLower`.
-/

/-- Boolean test that `pat` is a prefix of `l` (Python `startswith`). -/
def isPrefixOfB : List Char → List Char → Bool
  | [], _ => true
  | _ :: _, [] => false
  | a :: as, b :: bs => a == b && isPrefixOfB as bs

/-- Boolean test that `pat` occurs contiguously inside `l` (Python `in`). -/
def isInfixOfB (pat : List Char) : List Char → Bool
  | [] => isPrefixOfB pat []
  | b :: bs => isPrefixOfB pat (b :: bs) || isInfixOfB pat bs

/-- Boolean test that `pat` is a suffix of `l` (Python `endswith`). -/
def isSuffixOfB (pat l : List Char) : Bool :=
  isPrefixOfB pat.reverse l.reverse

/-- The characters of `l` preceding the first occurrence of `pat`; the whole
list when `pat` does not occur.  This is Python `l.split(pat)[0]`. -/
def takeBeforeFirst (pat : List Char) : List Char → List Char
  | [] => []
  | c :: cs => if isPrefixOfB pat (c :: cs) then [] else c :: takeBeforeFirst pat cs

/-- Python `sub in s` on strings. -/
def strContains (s sub : String) : Bool := isInfixOfB sub.data s.data

/-- Python `s.lower()`, as a character list (ASCII). -/
def lowerData (s : String) : List Char := s.data.map Char.toLower

/-- The `dataType` values appearing in a configuration document. -/
inductive DataType
  | string | number | boolean | datetime | objectId | object | array
deriving DecidableEq

/-- One entry of the `fields` array of a configuration document.  `dataType`
and `relationshipTarget` are read with `dict.get` in the scripts, so they are
optional; `includeFlag` embeds the `include` key (`include` is reserved in
Lean). -/
structure FieldDef where
  fieldPath : String
  dataType : Option DataType
  includeFlag : Bool
  relationshipTarget : Option String
deriving DecidableEq

/-- Python truthiness of `field.get('relationshipTarget')`: `None` and the
empty string are falsy. -/
def relTargetSet : Option String → Bool
  | none => false
  | some s => s != ""

/-- The expansion marker `'_expanded'` used by `verify_export_safety.py`. -/
def expandedMarker : List Char := "_expanded".data

/-- Python `'_expanded' in field['fieldPath']`. -/
def containsExpanded (s : String) : Bool := isInfixOfB expandedMarker s.data

/-- Python `field['fieldPath'].split('_expanded')[0]`. -/
def expansionBase (s : String) : String := ⟨takeBeforeFirst expandedMarker s.data⟩

/-- The fields collected into the `expanded_fields` dict of
`check_expansion_dependencies`: path contains `'_expanded'` and the field is
included. -/
def expandedEntries (fields : List FieldDef) : List FieldDef :=
  fields.filter (fun f => containsExpanded f.fieldPath && f.includeFlag)

/-- Deduplication keeping the first occurrence, as a Python dict keyed by
insertion order does. -/
def firstDedup : List String → List String
  | [] => []
  | a :: as => a :: (firstDedup as).filter (fun b => b ≠ a)

/-- The keys of the `expanded_fields` dict, in insertion order. -/
def expansionBases (fields : List FieldDef) : List String :=
  firstDedup ((expandedEntries fields).map (fun f => expansionBase f.fieldPath))

/-- The value list of the `expanded_fields` dict at key `base`. -/
def expansionsOf (fields : List FieldDef) (base : String) : List String :=
  (expandedEntries fields).filterMap
    (fun f => if expansionBase f.fieldPath = base then some f.fieldPath else none)

/-- An entry of the `issues` list of `check_expansion_dependencies`.  The
script distinguishes the two kinds by the `"ERROR:"` / `"WARNING:"` message
markers; the messages name the base path and its expansion paths. -/
inductive Issue
  | error (base : String) (expansions : List String)
  | warning (base : String) (expansions : List String)
deriving DecidableEq

/-- `check_expansion_dependencies` from `verify_export_safety.py`: for every
base of an included `_expanded` field, emit an ERROR when no field with the
base path exists, a WARNING when it exists without a truthy
`relationshipTarget`, and nothing otherwise (the not-included case only
prints an INFO line). -/
def checkExpansionDependencies (fields : List FieldDef) : List Issue :=
  (expansionBases fields).filterMap (fun base =>
    match fields.find? (fun g => g.fieldPath == base) with
    | none => some (.error base (expansionsOf fields base))
    | some bf =>
      if relTargetSet bf.relationshipTarget then none
      else some (.warning base (expansionsOf fields base)))

/-- Whether an issue is of the ERROR kind. -/
def isErrorIssue : Issue → Bool
  | .error _ _ => true
  | .warning _ _ => false

/-- Modelled from the spec: the Session state machine is not part of the
archived scripts; per the spec, a session transitions to REJECTED exactly on a
fatal `ConfigIntegrityError` (the ERROR kind), while warnings are surfaced and
do not block. -/
def sessionBlocked (issues : List Issue) : Bool := issues.any isErrorIssue

/-- Python `f['fieldPath'].startswith(field['fieldPath'] + '_expanded') and
f.get('include', False)`, scanned over all fields. -/
def hasActiveExpansions (fields : List FieldDef) (basePath : String) : Bool :=
  fields.any (fun f =>
    isPrefixOfB (basePath ++ "_expanded").data f.fieldPath.data && f.includeFlag)

/-- The `results` dict of `simulate_field_disabling`. -/
structure SimResults where
  totalFields : Nat
  fieldsToDisable : Nat
  fieldsAfter : Nat
  brokenExpansions : List String
  safeToDisable : List String
deriving DecidableEq

/-- The main loop of `simulate_field_disabling`, threading the field list
through each iteration: the body reads `field` and appends to the result
lists but contains no assignment to a field, so each iteration passes the
field through unchanged.  Returns the post-loop field list together with the
accumulated `broken_expansions` and `safe_to_disable` lists. -/
def simLoop (allFields : List FieldDef) (disableList : List String) :
    List FieldDef → List FieldDef × List String × List String
  | [] => ([], [], [])
  | f :: rest =>
    let r := simLoop allFields disableList rest
    if disableList.contains f.fieldPath then
      if f.includeFlag then
        if (f.dataType == some .objectId) && relTargetSet f.relationshipTarget then
          if hasActiveExpansions allFields f.fieldPath then
            (f :: r.1, f.fieldPath :: r.2.1, r.2.2)
          else
            (f :: r.1, r.2.1, f.fieldPath :: r.2.2)
        else (f :: r.1, r.2.1, f.fieldPath :: r.2.2)
      else (f :: r.1, r.2.1, r.2.2)
    else (f :: r.1, r.2.1, r.2.2)

/-- `simulate_field_disabling` from `verify_export_safety.py`.  `total_fields`
is counted before the loop; `fields_after` is counted from the field list
after the loop. -/
def simulateFieldDisabling (fields : List FieldDef) (disableList : List String) :
    List FieldDef × SimResults :=
  let total := (fields.filter (fun f => f.includeFlag)).length
  let r := simLoop fields disableList fields
  (r.1,
   { totalFields := total,
     fieldsToDisable := disableList.length,
     fieldsAfter :=
       (r.1.filter (fun f => f.includeFlag && !(disableList.contains f.fieldPath))).length,
     brokenExpansions := r.2.1,
     safeToDisable := r.2.2 })

/-- One of the three matching strategies of `apply_recommendations`:
`field_path.lower() == f.lower() or
 field_path.lower().endswith('.' + f.lower()) or
 f.lower() in field_path.lower()`. -/
def tierMatch (fieldPath cand : String) : Bool :=
  lowerData fieldPath == lowerData cand ||
  isSuffixOfB ('.' :: lowerData cand) (lowerData fieldPath) ||
  isInfixOfB (lowerData cand) (lowerData fieldPath)

/-- The `any(... for f in fields_to_disable)` guard of `apply_recommendations`. -/
def matchesAny (fieldPath : String) (cands : List String) : Bool :=
  cands.any (fun c => tierMatch fieldPath c)

/-- The spec's three-tier candidate matching, stated from the spec text:
exact path equality ignoring case, then dotted-suffix match
(field ends with `'.' + candidate`), then substring containment of the
candidate in the field path; kept separate from `tierMatch` so the code can
be compared against it. -/
def threeTierMatchSpec (fieldPath cand : String) : Bool :=
  lowerData fieldPath == lowerData cand ||
  isSuffixOfB ('.' :: lowerData cand) (lowerData fieldPath) ||
  isInfixOfB (lowerData cand) (lowerData fieldPath)

/-- The `changes` dict of `apply_recommendations`; `notFound` is initialized
and never incremented, exactly as in the script. -/
structure Changes where
  disabled : Nat
  alreadyDisabled : Nat
  notFound : Nat
deriving DecidableEq

/-- The mutation loop of `apply_recommendations` from
`apply_final_recommendations.py`: for each field matching a candidate, set
`include` to `False` if it was `True` (counting `disabled`), otherwise count
`already_disabled`; other fields pass through unchanged. -/
def applyRecommendations : List FieldDef → List String → List FieldDef × Changes
  | [], _ => ([], ⟨0, 0, 0⟩)
  | f :: rest, cands =>
    let r := applyRecommendations rest cands
    if matchesAny f.fieldPath cands then
      if f.includeFlag then
        ({ f with includeFlag := false } :: r.1,
         { r.2 with disabled := r.2.disabled + 1 })
      else (f :: r.1, { r.2 with alreadyDisabled := r.2.alreadyDisabled + 1 })
    else (f :: r.1, r.2)

/-- The paths of the currently included fields of a snapshot. -/
def includedPaths (fields : List FieldDef) : List String :=
  (fields.filter (fun f => f.includeFlag)).map (fun f => f.fieldPath)

/-- One step of a write against the configuration store.  `save_config` runs
`open(filename, 'w')`, which truncates the file in place, followed by
`json.dump`, which streams the serialized text in chunks. -/
inductive WriteOp
  | truncate
  | append (chunk : String)
deriving DecidableEq

/-- The operation sequence `save_config` issues against the store for a
serialized document split into `chunks`. -/
def saveConfigOps (chunks : List String) : List WriteOp :=
  .truncate :: chunks.map .append

/-- Effect of a single write operation on the stored content. -/
def runWriteOp (store : String) : WriteOp → String
  | .truncate => ""
  | .append c => store ++ c

/-- Stored content after running a whole operation sequence. -/
def runWriteOps (store : String) (ops : List WriteOp) : String :=
  ops.foldl runWriteOp store

/-- Stored content after a write attempt that fails after the first `k`
operations: only the prefix of the sequence has executed. -/
def runWritePartial (store : String) (ops : List WriteOp) (k : Nat) : String :=
  runWriteOps store (ops.take k)

/-- Concatenation of the serialized chunks. -/
def joinChunks : List String → String
  | [] => ""
  | c :: cs => c ++ joinChunks cs

/-- The `category` values of a coverage summary record. -/
inductive FieldCategory
  | SINGLE_VALUE | MEANINGFUL | EMPTY | UNKNOWN
deriving DecidableEq

/-- A recommendation decision of `categorize_field`. -/
inductive Decision
  | KEEP | DISABLE | CONSIDER
deriving DecidableEq

/-- The reason strings returned by `categorize_field`, one constructor per
format template, carrying the interpolated values. -/
inductive Reason
  | completelyEmpty
  | singleValueOnly (sample : String)
  | singleValueNoVariation
  | technicalId
  | extremelySparseLowUnique (nullPct : ℚ) (uniqueValues : Nat)
  | addressDemographicTooSparse (nullPct : ℚ)
  | addressDemographicSparseValuable (nullPct : ℚ)
  | tooSparse (nullPct : ℚ)
  | demographicTooSparse (nullPct : ℚ)
  | demographicSparseConsider (nullPct : ℚ)
  | interestTooSparse (nullPct : ℚ)
  | possibleDuplicateFullName
  | goodCoverage (nullPct : ℚ)
  | moderateCoverage (nullPct : ℚ)
  | limitedCoverage (nullPct : ℚ)
  | evaluateBusiness (nullPct : ℚ)
deriving DecidableEq

/-- One record of `summary['fieldSummaries']`, with the keys read by
`categorize_field`; `nullPercentage` is modelled as a rational. -/
structure CovField where
  fieldName : String
  nullPercentage : ℚ
  uniqueValues : Nat
  category : FieldCategory
  sampleValues : List String
deriving DecidableEq

/-- The fixed technical-identifier name list of rule 3 of `categorize_field`. -/
def technicalIdNames : List String :=
  ["Client", "Realm Data Owner Agent", "Realm Data Owner Team",
   "Realm Data Owner Team Leader", "Realm Data Owner Agent Person",
   "Realm Data Owner Agent Subscription"]

/-- The demographic-name test of `categorize_field`:
`'personexternaldata' in name.lower() or any(x in name for x in
['Income', 'Education', 'Age', 'Gender', 'Household', 'Net Worth'])`. -/
def demographicName (name : String) : Bool :=
  isInfixOfB "personexternaldata".data (lowerData name) ||
  ["Income", "Education", "Age", "Gender", "Household", "Net Worth"].any
    (fun x => strContains name x)

/-- The address/demographic/name keyword test inside rule 4 of
`categorize_field`. -/
def addressDemoNameKeyword (name : String) : Bool :=
  strContains name "Address" || strContains name "Demographics" ||
  strContains name "Name"

/-- `categorize_field` from `analyze_field_quality.py`, as the cascading
if/elif chain of the script.  The guard of the inner `elif null_pct > 98`
branch is reached under `null_pct > 95`, kept here as the conjunction to
mirror the nesting (the branch is skipped when `null_pct > 95` holds but
neither `unique_values < 10` nor `null_pct > 98` does, falling through to
the later rules exactly as in the script). -/
def categorizeField (f : CovField) : Decision × Reason :=
  if f.nullPercentage ≥ 99.99 then (.DISABLE, .completelyEmpty)
  else if f.category = .SINGLE_VALUE ∨ f.uniqueValues = 1 then
    match f.sampleValues with
    | s :: _ => (.DISABLE, .singleValueOnly s)
    | [] => (.DISABLE, .singleValueNoVariation)
  else if f.fieldName ∈ technicalIdNames then (.DISABLE, .technicalId)
  else if f.nullPercentage > 95 ∧ f.uniqueValues < 10 then
    (.DISABLE, .extremelySparseLowUnique f.nullPercentage f.uniqueValues)
  else if f.nullPercentage > 95 ∧ f.nullPercentage > 98 then
    if addressDemoNameKeyword f.fieldName then
      if f.nullPercentage > 99 then
        (.DISABLE, .addressDemographicTooSparse f.nullPercentage)
      else (.KEEP, .addressDemographicSparseValuable f.nullPercentage)
    else (.DISABLE, .tooSparse f.nullPercentage)
  else if demographicName f.fieldName = true ∧ f.nullPercentage > 90 then
    (.DISABLE, .demographicTooSparse f.nullPercentage)
  else if demographicName f.fieldName = true ∧ f.nullPercentage > 80 then
    (.CONSIDER, .demographicSparseConsider f.nullPercentage)
  else if strContains f.fieldName "Interest" = true ∧ f.nullPercentage > 85 then
    (.DISABLE, .interestTooSparse f.nullPercentage)
  else if f.fieldName = "Full Name" ∧ f.nullPercentage < 1 then
    (.CONSIDER, .possibleDuplicateFullName)
  else if f.nullPercentage < 50 then (.KEEP, .goodCoverage f.nullPercentage)
  else if f.nullPercentage < 75 then (.KEEP, .moderateCoverage f.nullPercentage)
  else if f.nullPercentage < 85 then (.CONSIDER, .limitedCoverage f.nullPercentage)
  else (.CONSIDER, .evaluateBusiness f.nullPercentage)

/-- One row of the `analyze_field_quality.py` report, with the keys the sort
reads: `priority.get(x['Recommendation'], 3)` and `float(x['Null %'])`. -/
structure QualityRow where
  fieldName : String
  nullPct : ℚ
  recommendation : Decision
deriving DecidableEq

/-- The `priority` dict of `analyze_fields` in `analyze_field_quality.py`:
`{'DISABLE': 0, 'CONSIDER': 1, 'KEEP': 2}` (the default `3` is unreachable,
`categorize_field` produces only these three decisions). -/
def qualityDecRank : Decision → Nat
  | .DISABLE => 0
  | .CONSIDER => 1
  | .KEEP => 2

/-- The sort key tuple of `analyze_field_quality.py`:
`(priority.get(x['Recommendation'], 3), float(x['Null %']))`, compared
lexicographically as Python compares tuples. -/
def qualityKey (r : QualityRow) : Lex (Nat × ℚ) :=
  toLex (qualityDecRank r.recommendation, r.nullPct)

/-- Ordering on report rows induced by the quality sort key. -/
def qualityLe (a b : QualityRow) : Prop := qualityKey a ≤ qualityKey b

instance : DecidableRel qualityLe :=
  fun a b => inferInstanceAs (Decidable (qualityKey a ≤ qualityKey b))

instance : IsTotal QualityRow qualityLe :=
  ⟨fun a b => le_total (qualityKey a) (qualityKey b)⟩

instance : IsTrans QualityRow qualityLe :=
  ⟨fun _ _ _ hab hbc => le_trans hab hbc⟩

/-- `results.sort(key=...)` of `analyze_field_quality.py`: Python's stable
ascending sort by key, embedded as insertion sort (a stable sort is uniquely
determined by its key, so this is the same input-output function). -/
def sortQualityRows (rows : List QualityRow) : List QualityRow :=
  rows.insertionSort qualityLe

/-- The `Final Recommendation` values of `analyze_final_recommendations.py`. -/
inductive FinalDecision
  | DISABLE | OPTIONAL | KEEP
deriving DecidableEq

/-- The `Priority` values of `analyze_final_recommendations.py`. -/
inductive RecPriority
  | HIGH | MEDIUM | LOW
deriving DecidableEq

/-- One row of the `analyze_final_recommendations.py` report, with the keys
its sort reads plus the null percentage column. -/
structure FinalRow where
  fieldPath : String
  nullPct : ℚ
  finalRecommendation : FinalDecision
  priority : RecPriority
deriving DecidableEq

/-- The `rec_order` dict: `{'DISABLE': 0, 'OPTIONAL': 1, 'KEEP': 2}`. -/
def recOrder : FinalDecision → Nat
  | .DISABLE => 0
  | .OPTIONAL => 1
  | .KEEP => 2

/-- The `priority_order` dict: `{'HIGH': 0, 'MEDIUM': 1, 'LOW': 2}`. -/
def priorityRank : RecPriority → Nat
  | .HIGH => 0
  | .MEDIUM => 1
  | .LOW => 2

/-- The sort key tuple of `analyze_final_recommendations.py`:
`(rec_order[...], priority_order[...], x['Field Path'])`; the path is
compared as its character sequence, which is how Python compares strings. -/
def finalKey (r : FinalRow) : Lex (Nat × Lex (Nat × List Char)) :=
  toLex (recOrder r.finalRecommendation, toLex (priorityRank r.priority, r.fieldPath.data))

/-- Ordering on final report rows induced by the final sort key. -/
def finalLe (a b : FinalRow) : Prop := finalKey a ≤ finalKey b

instance : DecidableRel finalLe :=
  fun a b => inferInstanceAs (Decidable (finalKey a ≤ finalKey b))

instance : IsTotal FinalRow finalLe :=
  ⟨fun a b => le_total (finalKey a) (finalKey b)⟩

instance : IsTrans FinalRow finalLe :=
  ⟨fun _ _ _ hab hbc => le_trans hab hbc⟩

/-- `recommendations.sort(key=...)` of `analyze_final_recommendations.py`,
embedded as the stable insertion sort by its key. -/
def sortFinalRows (rows : List FinalRow) : List FinalRow :=
  rows.insertionSort finalLe

/-- The decision rank of the three-part key claimed by the spec, which places
KEEP and OPTIONAL at the same (last) rank: DISABLE before CONSIDER before
KEEP/OPTIONAL. -/
def claimedDecRank : FinalDecision → Nat
  | .DISABLE => 0
  | .OPTIONAL => 2
  | .KEEP => 2

/-- The three-part key ordering claimed by the spec for report rows:
decision rank, then priority (HIGH before MEDIUM before LOW), then
nullPercentage ascending. -/
def claimedLeB (a b : FinalRow) : Bool :=
  decide (toLex (claimedDecRank a.finalRecommendation,
            toLex (priorityRank a.priority, a.nullPct)) ≤
          toLex (claimedDecRank b.finalRecommendation,
            toLex (priorityRank b.priority, b.nullPct)))

/-- Boolean sortedness of a list under a boolean relation. -/
def sortedByB (le : α → α → Bool) : List α → Bool
  | [] => true
  | [_] => true
  | a :: b :: rest => le a b && sortedByB le (b :: rest)

/-- The guard under which the loop of `simulate_field_disabling` appends a
field's path to `broken_expansions`: exact membership in the disable list,
currently included, an objectId with a truthy relationship target, and at
least one active expansion. -/
def simBrokenPred (allFields : List FieldDef) (disableList : List String)
    (f : FieldDef) : Bool :=
  disableList.contains f.fieldPath && f.includeFlag &&
  ((f.dataType == some .objectId) && relTargetSet f.relationshipTarget) &&
  hasActiveExpansions allFields f.fieldPath

/-- The guard under which the loop of `simulate_field_disabling` appends a
field's path to `safe_to_disable`. -/
def simSafePred (allFields : List FieldDef) (disableList : List String)
    (f : FieldDef) : Bool :=
  disableList.contains f.fieldPath && f.includeFlag &&
  !(((f.dataType == some .objectId) && relTargetSet f.relationshipTarget) &&
    hasActiveExpansions allFields f.fieldPath)

/-- Closed form of the simulation loop: the field list passes through
unchanged, and the two result lists collect the paths of the fields
satisfying the respective guards, in field order. -/
theorem simLoop_eq (allFields : List FieldDef) (dl : List String)
    (l : List FieldDef) :
    simLoop allFields dl l =
      (l, (l.filter (simBrokenPred allFields dl)).map (fun f => f.fieldPath),
          (l.filter (simSafePred allFields dl)).map (fun f => f.fieldPath)) := by
  induction l with
  | nil => rfl
  | cons f rest ih =>
    by_cases hc : f.fieldPath ∈ dl <;>
      by_cases hi : f.includeFlag = true <;>
        by_cases hdt : f.dataType = some DataType.objectId <;>
          by_cases hrel : relTargetSet f.relationshipTarget = true <;>
            by_cases he : hasActiveExpansions allFields f.fieldPath = true <;>
              simp [simLoop, ih, simBrokenPred, simSafePred, hc, hi, hdt, hrel, he,
                List.filter_cons]

/-- Fields with equal paths in a snapshot whose paths are distinct are the
same field. -/
theorem eq_of_mem_of_path_eq {fields : List FieldDef} {f g : FieldDef}
    (hnd : (fields.map (fun f => f.fieldPath)).Nodup)
    (hf : f ∈ fields) (hg : g ∈ fields) (h : f.fieldPath = g.fieldPath) :
    f = g :=
  List.inj_on_of_nodup_map hnd hf hg h

/-- The `broken_expansions` list of the simulation results in closed form. -/
theorem simulate_brokenExpansions (fields : List FieldDef) (dl : List String) :
    (simulateFieldDisabling fields dl).2.brokenExpansions =
      (fields.filter (simBrokenPred fields dl)).map (fun f => f.fieldPath) := by
  simp [simulateFieldDisabling, simLoop_eq]

/-- The `safe_to_disable` list of the simulation results in closed form. -/
theorem simulate_safeToDisable (fields : List FieldDef) (dl : List String) :
    (simulateFieldDisabling fields dl).2.safeToDisable =
      (fields.filter (simSafePred fields dl)).map (fun f => f.fieldPath) := by
  simp [simulateFieldDisabling, simLoop_eq]

/-- C9: `SafetyValidator.simulate` never mutates its input snapshot.  The
field list threaded through the loop of `simulate_field_disabling` comes out
structurally equal to the input snapshot (in particular no field's include
flag changes). -/
theorem simulate_never_mutates_snapshot (fields : List FieldDef) (dl : List String) :
    (simulateFieldDisabling fields dl).1 = fields := by
  simp [simulateFieldDisabling, simLoop_eq]

/-- C3: in `simulate_field_disabling`, a base field with dataType objectId, a
set relationshipTarget and `include = true` that has at least one included
expansion is appended to `broken_expansions` and not to `safe_to_disable`;
the same base field with `include = false` is appended to neither list. -/
theorem simulate_classifies_relationship_bases (fields : List FieldDef)
    (dl : List String) (f : FieldDef)
    (hnd : (fields.map (fun g => g.fieldPath)).Nodup)
    (hf : f ∈ fields) (hd : f.fieldPath ∈ dl)
    (hdt : f.dataType = some DataType.objectId)
    (hrel : relTargetSet f.relationshipTarget = true)
    (he : hasActiveExpansions fields f.fieldPath = true) :
    (f.includeFlag = true →
       f.fieldPath ∈ (simulateFieldDisabling fields dl).2.brokenExpansions ∧
       f.fieldPath ∉ (simulateFieldDisabling fields dl).2.safeToDisable) ∧
    (f.includeFlag = false →
       f.fieldPath ∉ (simulateFieldDisabling fields dl).2.brokenExpansions ∧
       f.fieldPath ∉ (simulateFieldDisabling fields dl).2.safeToDisable) := by
  constructor
  · intro hi
    constructor
    · rw [simulate_brokenExpansions]
      exact List.mem_map.mpr
        ⟨f, List.mem_filter.mpr ⟨hf, by simp [simBrokenPred, hd, hi, hdt, hrel, he]⟩, rfl⟩
    · rw [simulate_safeToDisable]
      intro hmem
      obtain ⟨g, hg, hpath⟩ := List.mem_map.mp hmem
      obtain ⟨hgmem, hgpred⟩ := List.mem_filter.mp hg
      have hfg : g = f := eq_of_mem_of_path_eq hnd hgmem hf hpath
      subst hfg
      simp [simSafePred, hdt, hrel, he] at hgpred
  · intro hi
    constructor
    · rw [simulate_brokenExpansions]
      intro hmem
      obtain ⟨g, hg, hpath⟩ := List.mem_map.mp hmem
      obtain ⟨hgmem, hgpred⟩ := List.mem_filter.mp hg
      have hfg : g = f := eq_of_mem_of_path_eq hnd hgmem hf hpath
      subst hfg
      simp [simBrokenPred, hi] at hgpred
    · rw [simulate_safeToDisable]
      intro hmem
      obtain ⟨g, hg, hpath⟩ := List.mem_map.mp hmem
      obtain ⟨hgmem, hgpred⟩ := List.mem_filter.mp hg
      have hfg : g = f := eq_of_mem_of_path_eq hnd hgmem hf hpath
      subst hfg
      simp [simSafePred, hi] at hgpred

/-- The spec's Scenario D snapshot: base `client` included, with an active
expansion `client_expanded.name.fullName`. -/
def scenarioDFields : List FieldDef :=
  [⟨"client", some .objectId, true, some "people"⟩,
   ⟨"client_expanded.name.fullName", some .string, true, none⟩]

/-- The spec's Scenario C snapshot: the same base `client` already excluded. -/
def scenarioCFields : List FieldDef :=
  [⟨"client", some .objectId, false, some "people"⟩,
   ⟨"client_expanded.name.fullName", some .string, true, none⟩]

/-- Witness for C3 at the spec's Scenario C and Scenario D snapshots. -/
theorem simulate_classifies_relationship_bases_witness :
    ("client" ∈ (simulateFieldDisabling scenarioDFields ["client"]).2.brokenExpansions ∧
     "client" ∉ (simulateFieldDisabling scenarioDFields ["client"]).2.safeToDisable) ∧
    ("client" ∉ (simulateFieldDisabling scenarioCFields ["client"]).2.brokenExpansions ∧
     "client" ∉ (simulateFieldDisabling scenarioCFields ["client"]).2.safeToDisable) :=
  ⟨(simulate_classifies_relationship_bases scenarioDFields ["client"]
      ⟨"client", some .objectId, true, some "people"⟩ (by decide) (by decide) (by decide)
      rfl (by decide) (by decide)).1 rfl,
   (simulate_classifies_relationship_bases scenarioCFields ["client"]
      ⟨"client", some .objectId, false, some "people"⟩ (by decide) (by decide) (by decide)
      rfl (by decide) (by decide)).2 rfl⟩

/-- Applying the same disable set a second time leaves the snapshot fixed:
every field the first pass matched is already excluded, so the second pass
only counts it as `already_disabled`. -/
theorem applyRecommendations_fst_idem (fields : List FieldDef) (cands : List String) :
    (applyRecommendations (applyRecommendations fields cands).1 cands).1 =
      (applyRecommendations fields cands).1 := by
  induction fields with
  | nil => rfl
  | cons f rest ih =>
    by_cases hm : matchesAny f.fieldPath cands = true
    · by_cases hi : f.includeFlag = true
      · simp [applyRecommendations, hm, hi, ih]
      · simp [applyRecommendations, hm, hi, ih]
    · simp [applyRecommendations, hm, ih]

/-- Unfolding of `includedPaths` at a cons cell. -/
theorem includedPaths_cons (f : FieldDef) (l : List FieldDef) :
    includedPaths (f :: l) =
      if f.includeFlag then f.fieldPath :: includedPaths l else includedPaths l := by
  by_cases h : f.includeFlag = true <;> simp [includedPaths, List.filter_cons, h]

/-- Pointwise shape of `apply_recommendations`: the output snapshot has the
same paths in the same positions, and a field included in the output was
already included in the input. -/
theorem applyRecommendations_forall2 (fields : List FieldDef) (cands : List String) :
    List.Forall₂
      (fun a b => b.fieldPath = a.fieldPath ∧ (b.includeFlag = true → a.includeFlag = true))
      fields (applyRecommendations fields cands).1 := by
  induction fields with
  | nil => simp [applyRecommendations]
  | cons f rest ih =>
    by_cases hm : matchesAny f.fieldPath cands = true
    · by_cases hi : f.includeFlag = true
      · simp only [applyRecommendations, hm, hi, if_true]
        exact List.Forall₂.cons ⟨rfl, by simp⟩ ih
      · simp only [applyRecommendations, hm, if_true, Bool.not_eq_true] at *
        simp only [hi]
        exact List.Forall₂.cons ⟨rfl, fun h => h⟩ ih
    · simp only [applyRecommendations, hm, if_false, Bool.false_eq_true]
      exact List.Forall₂.cons ⟨rfl, fun h => h⟩ ih

/-- The included paths of the output of `apply_recommendations` form a subset
of the included paths of the input. -/
theorem applyRecommendations_included_subset (fields : List FieldDef)
    (cands : List String) (p : String) :
    p ∈ includedPaths (applyRecommendations fields cands).1 → p ∈ includedPaths fields := by
  induction fields with
  | nil => intro hp; simp [applyRecommendations, includedPaths] at hp
  | cons f rest ih =>
    intro hp
    by_cases hm : matchesAny f.fieldPath cands = true
    · by_cases hi : f.includeFlag = true
      · rw [show (applyRecommendations (f :: rest) cands).1 =
              { f with includeFlag := false } :: (applyRecommendations rest cands).1 by
            simp [applyRecommendations, hm, hi]] at hp
        rw [includedPaths_cons] at hp
        simp only [Bool.false_eq_true, if_false] at hp
        rw [includedPaths_cons, if_pos hi]
        exact List.mem_cons_of_mem _ (ih hp)
      · rw [show (applyRecommendations (f :: rest) cands).1 =
              f :: (applyRecommendations rest cands).1 by
            simp [applyRecommendations, hm, hi]] at hp
        rw [includedPaths_cons] at hp
        rw [includedPaths_cons]
        split at hp <;> rename_i hif
        · rw [if_pos hif]
          rcases List.mem_cons.mp hp with hp | hp
          · simp [hp]
          · exact List.mem_cons_of_mem _ (ih hp)
        · rw [if_neg hif]
          exact ih hp
    · rw [show (applyRecommendations (f :: rest) cands).1 =
            f :: (applyRecommendations rest cands).1 by
          simp [applyRecommendations, hm]] at hp
      rw [includedPaths_cons] at hp
      rw [includedPaths_cons]
      split at hp <;> rename_i hif
      · rw [if_pos hif]
        rcases List.mem_cons.mp hp with hp | hp
        · simp [hp]
        · exact List.mem_cons_of_mem _ (ih hp)
      · rw [if_neg hif]
        exact ih hp

/-- C6: `ConfigMutator.apply` is idempotent on an already-disabled field: a
field that matches a candidate and has `include = false` increments
`already_disabled`, does not increment `disabled`, stays excluded and passes
through unchanged; applying the same disable set a second time yields the
same snapshot. -/
theorem apply_idempotent_on_disabled (cands : List String) (f : FieldDef)
    (fields : List FieldDef) (hm : matchesAny f.fieldPath cands = true)
    (hi : f.includeFlag = false) :
    applyRecommendations (f :: fields) cands =
      (f :: (applyRecommendations fields cands).1,
       { (applyRecommendations fields cands).2 with
           alreadyDisabled := (applyRecommendations fields cands).2.alreadyDisabled + 1 }) ∧
    (applyRecommendations (applyRecommendations (f :: fields) cands).1 cands).1 =
      (applyRecommendations (f :: fields) cands).1 := by
  refine ⟨?_, applyRecommendations_fst_idem (f :: fields) cands⟩
  simp [applyRecommendations, hm, hi]

/-- Witness for C6: a concrete already-disabled field matched by the disable
set of `apply_final_recommendations.py`. -/
theorem apply_idempotent_on_disabled_witness :
    applyRecommendations [⟨"fullName", some .string, false, none⟩] ["fullName"] =
      ([⟨"fullName", some .string, false, none⟩], ⟨0, 1, 0⟩) ∧
    (applyRecommendations
        (applyRecommendations [⟨"fullName", some .string, false, none⟩] ["fullName"]).1
        ["fullName"]).1 =
      (applyRecommendations [⟨"fullName", some .string, false, none⟩] ["fullName"]).1 := by
  have h := apply_idempotent_on_disabled ["fullName"] ⟨"fullName", some .string, false, none⟩ []
    (by decide) rfl
  exact ⟨h.1, h.2⟩

/-- C10: `ConfigMutator.apply` never enables a field: the output snapshot has
the same paths in the same positions, no include flag changes from false to
true, and so the included paths after apply form a subset of those before. -/
theorem apply_never_enables (fields : List FieldDef) (cands : List String) :
    List.Forall₂
      (fun a b => b.fieldPath = a.fieldPath ∧ (b.includeFlag = true → a.includeFlag = true))
      fields (applyRecommendations fields cands).1 ∧
    ∀ p, p ∈ includedPaths (applyRecommendations fields cands).1 →
      p ∈ includedPaths fields :=
  ⟨applyRecommendations_forall2 fields cands,
   fun p => applyRecommendations_included_subset fields cands p⟩

/-- C4: the classification rules are first-match-wins: any field with
`nullPercentage ≥ 99.99` is classified DISABLE with the completely-empty
reason, regardless of which later rules (such as the demographic rule) it
also satisfies, because rule 1 is tested first and later rules are never
consulted. -/
theorem categorize_rule_one_first (f : CovField) (h : f.nullPercentage ≥ 99.99) :
    categorizeField f = (.DISABLE, .completelyEmpty) := by
  unfold categorizeField
  rw [if_pos h]

/-- Witness for C4: a fully-null field whose name also satisfies the
demographic rule is still classified by rule 1. -/
theorem categorize_rule_one_first_witness :
    demographicName "Client Household Income" = true ∧
    (100 : ℚ) > 90 ∧
    categorizeField ⟨"Client Household Income", 100, 3, .MEANINGFUL, []⟩ =
      (.DISABLE, .completelyEmpty) :=
  ⟨by decide, by norm_num,
   categorize_rule_one_first ⟨"Client Household Income", 100, 3, .MEANINGFUL, []⟩
     (by norm_num)⟩

/-- C7: `categorize_field` is total with the documented fallback bands: a
field matching none of the earlier rules is classified KEEP (good coverage)
below 50 percent null, KEEP (moderate coverage) below 75, CONSIDER (limited
coverage) below 85, and CONSIDER (evaluate based on business requirements)
otherwise; being a Lean function, `categorizeField` assigns exactly one
decision to every field. -/
theorem categorize_fallback_bands (f : CovField)
    (h1 : ¬ f.nullPercentage ≥ 99.99)
    (h2 : ¬ (f.category = .SINGLE_VALUE ∨ f.uniqueValues = 1))
    (h3 : f.fieldName ∉ technicalIdNames)
    (h4 : ¬ (f.nullPercentage > 95 ∧ f.uniqueValues < 10))
    (h5 : ¬ f.nullPercentage > 98)
    (h6 : ¬ (demographicName f.fieldName = true ∧ f.nullPercentage > 80))
    (h7 : ¬ (strContains f.fieldName "Interest" = true ∧ f.nullPercentage > 85))
    (h8 : ¬ (f.fieldName = "Full Name" ∧ f.nullPercentage < 1)) :
    categorizeField f =
      if f.nullPercentage < 50 then (.KEEP, .goodCoverage f.nullPercentage)
      else if f.nullPercentage < 75 then (.KEEP, .moderateCoverage f.nullPercentage)
      else if f.nullPercentage < 85 then (.CONSIDER, .limitedCoverage f.nullPercentage)
      else (.CONSIDER, .evaluateBusiness f.nullPercentage) := by
  unfold categorizeField
  rw [if_neg h1, if_neg h2, if_neg h3, if_neg h4,
    if_neg (fun h => h5 h.2),
    if_neg (fun h => h6 ⟨h.1, lt_trans (by norm_num) h.2⟩),
    if_neg (fun h => h6 ⟨h.1, h.2⟩), if_neg h7, if_neg h8]

/-- Witness for C7: a plain field in the good-coverage band. -/
theorem categorize_fallback_bands_witness :
    categorizeField ⟨"Some Field", 30, 5, .MEANINGFUL, ["a"]⟩ = (.KEEP, .goodCoverage 30) := by
  rw [categorize_fallback_bands ⟨"Some Field", 30, 5, .MEANINGFUL, ["a"]⟩
    (by norm_num) (by decide) (by decide)
    (fun h => absurd h.1 (by norm_num)) (by norm_num)
    (fun h => absurd h.1 (by decide)) (fun h => absurd h.1 (by decide))
    (fun h => absurd h.1 (by decide))]
  rw [if_pos (by norm_num)]

/-- Two DISABLE/HIGH rows whose field paths and null percentages order in
opposite directions. -/
def finalRowA : FinalRow := ⟨"a", 50, .DISABLE, .HIGH⟩

/-- See `finalRowA`. -/
def finalRowB : FinalRow := ⟨"b", 10, .DISABLE, .HIGH⟩

/-- C8 counterexample: the report sort of `analyze_final_recommendations.py`
breaks ties on the field path, not on nullPercentage: on two DISABLE/HIGH
rows with paths `"a"`/`"b"` and null percentages 50/10 it returns the rows in
path order, which is not sorted by the claimed three-part key ending in
nullPercentage ascending. -/
theorem final_sort_not_by_claimed_key :
    sortFinalRows [finalRowA, finalRowB] = [finalRowA, finalRowB] ∧
    sortedByB claimedLeB [finalRowA, finalRowB] = false := by
  have hAB : finalLe finalRowA finalRowB := by
    show finalKey finalRowA ≤ finalKey finalRowB
    rw [finalKey, finalKey, Prod.Lex.le_iff]
    right
    refine ⟨rfl, ?_⟩
    rw [Prod.Lex.le_iff]
    right
    exact ⟨rfl, by decide⟩
  have hcl : claimedLeB finalRowA finalRowB = false := by
    apply decide_eq_false
    intro h
    rcases (Prod.Lex.le_iff _ _).mp h with h1 | ⟨-, h2⟩
    · exact absurd h1 (lt_irrefl _)
    · rcases (Prod.Lex.le_iff _ _).mp h2 with h3 | ⟨-, h4⟩
      · exact absurd h3 (lt_irrefl _)
      · have h5 : (50 : ℚ) ≤ 10 := h4
        norm_num at h5
  constructor
  · simp [sortFinalRows, List.insertionSort, List.orderedInsert, hAB]
  · simp [sortedByB, hcl]

/-- C8 amended: each report is sorted by the key its script actually uses —
`analyze_field_quality.py` by (decision rank with DISABLE before CONSIDER
before KEEP, then nullPercentage ascending), and
`analyze_final_recommendations.py` by (decision rank with DISABLE before
OPTIONAL before KEEP, then priority with HIGH before MEDIUM before LOW, then
field path ascending). -/
theorem reports_sorted_by_code_keys (qrows : List QualityRow) (frows : List FinalRow) :
    (sortQualityRows qrows).Sorted qualityLe ∧ (sortFinalRows frows).Sorted finalLe :=
  ⟨List.sorted_insertionSort qualityLe qrows, List.sorted_insertionSort finalLe frows⟩

/-- Membership is preserved by first-occurrence deduplication. -/
theorem mem_firstDedup (a : String) (l : List String) : a ∈ firstDedup l ↔ a ∈ l := by
  induction l with
  | nil => simp [firstDedup]
  | cons b rest ih =>
    by_cases hab : a = b
    · subst hab
      simp [firstDedup]
    · simp [firstDedup, hab, List.mem_filter, ih]

/-- The base of every included `_expanded` field is a key of the
`expanded_fields` dict. -/
theorem base_mem_expansionBases {fields : List FieldDef} {f : FieldDef}
    (hf : f ∈ fields) (hexp : containsExpanded f.fieldPath = true)
    (hinc : f.includeFlag = true) :
    expansionBase f.fieldPath ∈ expansionBases fields := by
  rw [expansionBases, mem_firstDedup]
  exact List.mem_map.mpr
    ⟨f, List.mem_filter.mpr ⟨hf, by simp [hexp, hinc]⟩, rfl⟩

/-- C5: `check_expansion_dependencies` emits the fatal MissingBaseField error
for the base of an included `_expanded` field when no field with the base
path exists; when the first field with the base path exists but its
relationshipTarget is not set, it emits the non-fatal UnboundExpansion
warning instead and no error for that base; and a session whose issue list
holds only warnings is never blocked (`sessionBlocked` is modelled from the
spec's Session state machine). -/
theorem check_missing_base_and_unbound_expansion (fields : List FieldDef)
    (f : FieldDef) (hf : f ∈ fields)
    (hexp : containsExpanded f.fieldPath = true) (hinc : f.includeFlag = true) :
    (fields.find? (fun g => g.fieldPath == expansionBase f.fieldPath) = none →
       Issue.error (expansionBase f.fieldPath)
           (expansionsOf fields (expansionBase f.fieldPath)) ∈
         checkExpansionDependencies fields) ∧
    (∀ bf, fields.find? (fun g => g.fieldPath == expansionBase f.fieldPath) = some bf →
       relTargetSet bf.relationshipTarget = false →
       Issue.warning (expansionBase f.fieldPath)
           (expansionsOf fields (expansionBase f.fieldPath)) ∈
         checkExpansionDependencies fields ∧
       ∀ exps, Issue.error (expansionBase f.fieldPath) exps ∉
         checkExpansionDependencies fields) ∧
    (∀ issues : List Issue, (∀ i ∈ issues, isErrorIssue i = false) →
       sessionBlocked issues = false) := by
  have hbase := base_mem_expansionBases hf hexp hinc
  refine ⟨?_, ?_, ?_⟩
  · intro hnone
    rw [checkExpansionDependencies]
    exact List.mem_filterMap.mpr ⟨expansionBase f.fieldPath, hbase, by rw [hnone]⟩
  · intro bf hfind hrel
    constructor
    · rw [checkExpansionDependencies]
      exact List.mem_filterMap.mpr
        ⟨expansionBase f.fieldPath, hbase, by rw [hfind]; simp [hrel]⟩
    · intro exps hmem
      rw [checkExpansionDependencies] at hmem
      obtain ⟨b, _, hemit⟩ := List.mem_filterMap.mp hmem
      rcases hfindb : fields.find? (fun g => g.fieldPath == b) with _ | bf2
      · rw [hfindb] at hemit
        have hb : b = expansionBase f.fieldPath := by
          simpa using congrArg (fun i => match i with
            | some (Issue.error base _) => base
            | _ => b) hemit
        rw [hb] at hfindb
        rw [hfindb] at hfind
        exact Option.noConfusion hfind
      · rw [hfindb] at hemit
        by_cases hr2 : relTargetSet bf2.relationshipTarget = true
        · simp [hr2] at hemit
        · simp only [Bool.not_eq_true] at hr2
          simp [hr2] at hemit
  · intro issues hall
    rw [sessionBlocked]
    simp only [List.any_eq_false]
    intro i hi
    simp [hall i hi]

/-- A snapshot with an included expansion whose base field is absent. -/
def missingBaseFields : List FieldDef :=
  [⟨"client_expanded.name", some .string, true, none⟩]

/-- A snapshot whose expansion base exists but carries no relationshipTarget. -/
def unboundBaseFields : List FieldDef :=
  [⟨"client", some .objectId, true, none⟩,
   ⟨"client_expanded.name", some .string, true, none⟩]

/-- Witness for C5 at concrete snapshots for both the missing-base and the
unbound-expansion cases. -/
theorem check_missing_base_and_unbound_expansion_witness :
    Issue.error "client" ["client_expanded.name"] ∈
      checkExpansionDependencies missingBaseFields ∧
    Issue.warning "client" ["client_expanded.name"] ∈
      checkExpansionDependencies unboundBaseFields ∧
    (∀ exps, Issue.error "client" exps ∉ checkExpansionDependencies unboundBaseFields) ∧
    sessionBlocked (checkExpansionDependencies unboundBaseFields) = false := by
  have hmiss := check_missing_base_and_unbound_expansion missingBaseFields
    ⟨"client_expanded.name", some .string, true, none⟩ (by decide) (by decide) rfl
  have hunb := check_missing_base_and_unbound_expansion unboundBaseFields
    ⟨"client_expanded.name", some .string, true, none⟩ (by decide) (by decide) rfl
  have hw := hunb.2.1 ⟨"client", some .objectId, true, none⟩ (by decide) rfl
  exact ⟨hmiss.1 (by decide), hw.1, hw.2,
    hunb.2.2 (checkExpansionDependencies unboundBaseFields) (by decide)⟩

/-- C1 counterexample: on the snapshot `[Client]` (included, not an objectId)
and candidate list `["client"]`, the candidate matches the field under the
three-tier strategy — and `apply_recommendations` does disable it — but
`simulate_field_disabling` appends the field to neither result list and still
counts it among the remaining fields, because its matching is exact and
case-sensitive (`field['fieldPath'] in disable_list`), not three-tier. -/
theorem simulate_matching_counterexample :
    threeTierMatchSpec "Client" "client" = true ∧
    matchesAny "Client" ["client"] = true ∧
    (applyRecommendations [⟨"Client", some .string, true, none⟩] ["client"]).2.disabled = 1 ∧
    (simulateFieldDisabling [⟨"Client", some .string, true, none⟩]
      ["client"]).2.brokenExpansions = [] ∧
    (simulateFieldDisabling [⟨"Client", some .string, true, none⟩]
      ["client"]).2.safeToDisable = [] ∧
    (simulateFieldDisabling [⟨"Client", some .string, true, none⟩]
      ["client"]).2.fieldsAfter = 1 := by
  decide

/-- C1 amended: only `ConfigMutator.apply` decides matches by the three-tier
strategy (exact equality ignoring case, dotted suffix, substring
containment); `SafetyValidator.simulate` matches a candidate only by exact,
case-sensitive equality of the field path with a disable-list entry: a field
whose path is not literally in the list is passed over (even when a tier
strategy would match it), and a field whose path is in the list and is
included is appended to exactly one of the two result lists. -/
theorem matching_strategies_amended :
    (∀ (path : String) (cands : List String),
       matchesAny path cands = true ↔ ∃ c ∈ cands, threeTierMatchSpec path c = true) ∧
    (∀ (allFields : List FieldDef) (dl : List String) (f : FieldDef) (l : List FieldDef),
       f.fieldPath ∉ dl →
       simLoop allFields dl (f :: l) =
         (f :: (simLoop allFields dl l).1,
          (simLoop allFields dl l).2.1, (simLoop allFields dl l).2.2)) ∧
    (∀ (allFields : List FieldDef) (dl : List String) (f : FieldDef) (l : List FieldDef),
       f.fieldPath ∈ dl → f.includeFlag = true →
       simLoop allFields dl (f :: l) =
         (f :: (simLoop allFields dl l).1,
          f.fieldPath :: (simLoop allFields dl l).2.1, (simLoop allFields dl l).2.2) ∨
       simLoop allFields dl (f :: l) =
         (f :: (simLoop allFields dl l).1,
          (simLoop allFields dl l).2.1, f.fieldPath :: (simLoop allFields dl l).2.2)) := by
  refine ⟨?_, ?_, ?_⟩
  · intro path cands
    rw [matchesAny, List.any_eq_true]
    constructor
    · rintro ⟨c, hc, ht⟩
      exact ⟨c, hc, ht⟩
    · rintro ⟨c, hc, ht⟩
      exact ⟨c, hc, ht⟩
  · intro allFields dl f l hmem
    simp [simLoop, hmem]
  · intro allFields dl f l hmem hinc
    by_cases hdt : f.dataType = some DataType.objectId <;>
      by_cases hrel : relTargetSet f.relationshipTarget = true <;>
        by_cases he : hasActiveExpansions allFields f.fieldPath = true <;>
          first
          | (left; simp [simLoop, hmem, hinc, hdt, hrel, he]; done)
          | (right; simp [simLoop, hmem, hinc, hdt, hrel, he]; done)

/-- Witness for C1 amended, at the candidate list `["client"]`: the dotted
suffix tier matches `"x.client"` for `apply`; `simulate` passes over the
included field `Client` (matched by the case-insensitive tier but not
literally in the list) and classifies the included field `client` (literally
in the list) into one of its two result lists. -/
theorem matching_strategies_amended_witness :
    (∃ c ∈ ["client"], threeTierMatchSpec "x.client" c = true) ∧
    simLoop [] ["client"] [⟨"Client", some .string, true, none⟩] =
      ([⟨"Client", some .string, true, none⟩], [], []) ∧
    (simLoop [] ["client"] [⟨"client", some .string, true, none⟩] =
       ([⟨"client", some .string, true, none⟩], ["client"], []) ∨
     simLoop [] ["client"] [⟨"client", some .string, true, none⟩] =
       ([⟨"client", some .string, true, none⟩], [], ["client"])) := by
  refine ⟨(matching_strategies_amended.1 "x.client" ["client"]).mp (by decide), ?_, ?_⟩
  · exact matching_strategies_amended.2.1 [] ["client"] _ [] (by decide)
  · exact matching_strategies_amended.2.2 [] ["client"] _ [] (by decide) rfl

/-- C2 counterexample: a `save_config` write of content `"new"` over prior
store content `"old"` that fails after the first operation (the truncating
`open(filename, 'w')`) has already destroyed the prior snapshot, so a failed
write does not leave the persisted store unchanged. -/
theorem save_config_not_atomic_counterexample :
    1 < (saveConfigOps ["new"]).length ∧
    runWritePartial "old" (saveConfigOps ["new"]) 1 ≠ "old" := by
  decide

/-- Appending the serialized chunks one by one extends the store content by
their concatenation. -/
theorem foldl_append_ops (cs : List String) (s : String) :
    (cs.map WriteOp.append).foldl runWriteOp s = s ++ joinChunks cs := by
  induction cs generalizing s with
  | nil => simp [joinChunks]
  | cons c rest ih => simp [joinChunks, runWriteOp, ih, String.append_assoc]

/-- C2 amended: `save_config` writes in place — the truncating open destroys
the prior snapshot first, so after any partial write the store holds a prefix
of the new content (never the prior snapshot unless it happens to coincide),
and only a write that runs to completion leaves the full new content; there
is no write-temp-then-replace step. -/
theorem save_config_truncates_in_place (store : String) (chunks : List String) (k : Nat) :
    runWritePartial store (saveConfigOps chunks) (k + 1) = joinChunks (chunks.take k) ∧
    runWriteOps store (saveConfigOps chunks) = joinChunks chunks := by
  constructor
  · rw [runWritePartial, saveConfigOps, List.take_succ_cons, ← List.map_take,
      runWriteOps, List.foldl_cons]
    show (List.map WriteOp.append (chunks.take k)).foldl runWriteOp "" = _
    rw [foldl_append_ops]
    simp
  · rw [runWriteOps, saveConfigOps, List.foldl_cons]
    show (List.map WriteOp.append chunks).foldl runWriteOp "" = _
    rw [foldl_append_ops]
    simp
